import Mathlib

/-!
Shallow embedding of the chart-building core of `src/app.py` (NQ event viewer).

Modelling conventions:
* Instants are integer minutes since an arbitrary epoch (`Int`); the fixed
  1-hour padding is `60`, the series granularity is 5 minutes.
* Prices are rationals (`Rat`); the source uses Python floats but no claim
  depends on rounding.
* `pd.to_datetime(value, utc=True, errors="coerce")` maps `None` to `None`
  and a malformed string to pandas `NaT`; we model the three possible results
  with `PTS` (`none` / `nat` / `time t`).  All pandas ordering comparisons
  involving `NaT` return `False`, `NaT ± Timedelta = NaT`, and `NaT` passes
  an `is not None` test; the definitions below reproduce exactly that.
* Raw record fields that may be missing, malformed, or a valid timestamp are
  modelled by `RawTS`; a missing key and an explicit JSON `null` both behave
  as Python `None` and are both modelled by `RawTS.null`.
* Fields of the record that the chart logic never reads (sidebar-only fields
  such as `entry_ts`, `stop_loss`, `hourly_fvg.direction`, …) are omitted.
-/

namespace NQViewer

set_option maxRecDepth 40000

/-- Raw timestamp field of an event record: missing/null, malformed text,
or text denoting a valid instant `t` (in minutes). -/
inductive RawTS where
  | null
  | malformed
  | valid (t : Int)
deriving DecidableEq

/-- Result of `parse_ts` / `pd.to_datetime(errors="coerce")`:
Python `None`, pandas `NaT`, or a real timestamp. -/
inductive PTS where
  | none
  | nat
  | time (t : Int)
deriving DecidableEq

/-- Function `parse_ts` from `src/app.py`: `None` stays `None`, malformed input is
coerced to `NaT`, valid input becomes a UTC instant.  Never raises. -/
def parse_ts : RawTS → PTS
  | RawTS.null => PTS.none
  | RawTS.malformed => PTS.nat
  | RawTS.valid t => PTS.time t

/-- Python's `x is not None` applied to a `parse_ts` result.  `NaT` is an
object distinct from `None`, so it passes this test. -/
def notNone : PTS → Bool
  | PTS.none => false
  | _ => true

/-- Whether a parsed timestamp is a genuine instant (not `None`, not `NaT`). -/
def isTime : PTS → Bool
  | PTS.time _ => true
  | _ => false

/-- pandas `<` on timestamps: any comparison involving `NaT` is `False`. -/
def ptsLt : PTS → PTS → Bool
  | PTS.time a, PTS.time b => a < b
  | _, _ => false

/-- pandas `>` on timestamps: any comparison involving `NaT` is `False`. -/
def ptsGt : PTS → PTS → Bool
  | PTS.time a, PTS.time b => b < a
  | _, _ => false

/-- Addition `ts + Timedelta(minutes = d)`; `NaT + anything = NaT`. -/
def ptsAdd (p : PTS) (d : Int) : PTS :=
  match p with
  | PTS.time t => PTS.time (t + d)
  | x => x

/-- Subtraction `ts - Timedelta(minutes = d)`; `NaT - anything = NaT`. -/
def ptsSub (p : PTS) (d : Int) : PTS :=
  match p with
  | PTS.time t => PTS.time (t - d)
  | x => x

/-- Python's builtin `min` on a nonempty list: keep the first element, replace
it whenever a later element compares `<` to the current one.  With pandas
comparison semantics `NaT` is returned exactly when it is the head. -/
def pyMin : List PTS → PTS
  | [] => PTS.none
  | x :: xs => xs.foldl (fun acc y => if ptsLt y acc then y else acc) x

/-- Python's builtin `max`, same caveats as `pyMin`. -/
def pyMax : List PTS → PTS
  | [] => PTS.none
  | x :: xs => xs.foldl (fun acc y => if ptsGt y acc then y else acc) x

/-- Record part `event["window"]`: the BOS (structure-break) window bounds. -/
structure Window where
  bos_window_start : RawTS
  bos_window_end : RawTS
deriving DecidableEq

/-- Record part `event["touch"]`. -/
structure Touch where
  window_start : RawTS
  window_end : RawTS
  ts_event : RawTS
  price_touched : Option Rat
deriving DecidableEq

/-- One element of `event["fvg_5m_in_window"]` (an imbalance). -/
structure Fvg where
  start_time : RawTS
  begin_bound : Option Rat
  end_bound : Option Rat
  fvg_5m_id : String
  index_first_touch : Option Int
  index_valid_close_after_touch : Option Int
deriving DecidableEq

/-- One element of `event["bos_5m_in_window"]` (a structure break). -/
structure Bos where
  ts_event : RawTS
  trigger_close : Option Rat
  bos_direction : String
deriving DecidableEq

/-- Record part `event["hourly_fvg"]` (reference imbalance), chart-relevant fields only. -/
structure Hourly where
  begin_bound : Option Rat
  end_bound : Option Rat
deriving DecidableEq

/-- One element of `event["trade_signals"]`, chart-relevant fields only.
`index_valid_close_after_touch = none` models a missing key or a non-integer
value (the code's `isinstance(idx_ct, int)` guard rejects the latter, and the
default `0` fails the `idx_ct <= 0` guard, so both behave like `none`). -/
structure TradeSignal where
  signal : String
  fvg_5m_id : Option String
  index_valid_close_after_touch : Option Int
  exit_signal : Option String
  exit_ts : RawTS
  exit_price : Option Rat
deriving DecidableEq

/-- An event record (chart-relevant parts). -/
structure Event where
  window : Window
  touch : Touch
  fvg_5m_in_window : List Fvg
  bos_5m_in_window : List Bos
  hourly_fvg : Hourly
  trade_signals : List TradeSignal
deriving DecidableEq

/-- One OHLC bar of the 5-minute series. -/
structure Bar where
  ts_event : Int
  open_ : Rat
  high : Rat
  low : Rat
  close : Rat
deriving DecidableEq

/-- The `candidates_start` list of `get_time_window`, in the exact order the
source appends: BOS window start, touch window start, touch instant, each
imbalance start, each structure-break instant.  The source appends each
parsed value iff it passes `is not None`; filtering the in-order list of all
parsed values by `notNone` yields exactly that list. -/
def candidatesStart (ev : Event) : List PTS :=
  ([parse_ts ev.window.bos_window_start,
    parse_ts ev.touch.window_start,
    parse_ts ev.touch.ts_event]
    ++ ev.fvg_5m_in_window.map (fun f => parse_ts f.start_time)
    ++ ev.bos_5m_in_window.map (fun b => parse_ts b.ts_event)).filter notNone

/-- The `candidates_end` list of `get_time_window`, in source order: BOS
window end, touch window end, touch instant, each imbalance start, each
structure-break instant. -/
def candidatesEnd (ev : Event) : List PTS :=
  ([parse_ts ev.window.bos_window_end,
    parse_ts ev.touch.window_end,
    parse_ts ev.touch.ts_event]
    ++ ev.fvg_5m_in_window.map (fun f => parse_ts f.start_time)
    ++ ev.bos_5m_in_window.map (fun b => parse_ts b.ts_event)).filter notNone

/-- Function `get_time_window` from `src/app.py`: `(None, None)` when either candidate
list is empty, otherwise `(min - 1h, max + 1h)` with Python `min`/`max`. -/
def get_time_window (ev : Event) : PTS × PTS :=
  let cs := candidatesStart ev
  let ce := candidatesEnd ev
  if cs = [] ∨ ce = [] then (PTS.none, PTS.none)
  else (ptsSub (pyMin cs) 60, ptsAdd (pyMax ce) 60)

/-- One iteration of the exit post-extension loop of `build_chart` (lines
160-165): if the signal's `exit_ts` parses to something that `is not None`,
set `end_ts := exit + 1h` whenever `end_ts is None or exit + 1h > end_ts`. -/
def exitStep (e : PTS) (sig : TradeSignal) : PTS :=
  let ex := parse_ts sig.exit_ts
  if notNone ex then
    let ext := ptsAdd ex 60
    if e = PTS.none ∨ ptsGt ext e then ext else e
  else e

/-- The whole exit post-extension loop of `build_chart`. -/
def extendEnd (sigs : List TradeSignal) (e0 : PTS) : PTS :=
  sigs.foldl exitStep e0

/-- The window `build_chart` actually filters with: `get_time_window` output
with the end bound post-extended over the trade signals. -/
def resolvedWindow (ev : Event) : PTS × PTS :=
  let w := get_time_window ev
  (w.1, extendEnd ev.trade_signals w.2)

/-- Comparison `bar.ts_event >= p` with pandas semantics (`False` against `NaT`;
the `None` case is unreachable because the code guards with `is not None`). -/
def barGe (t : Int) (p : PTS) : Bool :=
  match p with
  | PTS.time a => a ≤ t
  | _ => false

/-- Comparison `bar.ts_event <= p` with pandas semantics. -/
def barLe (t : Int) (p : PTS) : Bool :=
  match p with
  | PTS.time a => t ≤ a
  | _ => false

/-- The series windower of `build_chart` (lines 168-171): filter to
`start <= ts <= end` when both bounds pass `is not None`, else the full
series. -/
def windowedSeries (df : List Bar) (w : PTS × PTS) : List Bar :=
  if notNone w.1 && notNone w.2 then
    df.filter (fun b => barGe b.ts_event w.1 && barLe b.ts_event w.2)
  else df

/-- The `fvg_meta_by_id` dictionary of `build_chart`, as its insertion-ordered
(identifier, start instant) pairs.  An imbalance is inserted only after it has
survived, in order: the `start_time is None` guard (NaT survives!), the
missing-price-bound guard, and the falsy-identifier guard. -/
def fvgMetaEntry (f : Fvg) : Option (String × PTS) :=
  let st := parse_ts f.start_time
  if st = PTS.none then none
  else
    match f.begin_bound, f.end_bound with
    | some _, some _ => if f.fvg_5m_id = "" then none else some (f.fvg_5m_id, st)
    | _, _ => none

/-- See `fvgMetaEntry`; the dictionary as its insertion-ordered pairs. -/
def fvgMetaPairs (fvgs : List Fvg) : List (String × PTS) :=
  fvgs.filterMap fvgMetaEntry

/-- Python dict lookup on `fvg_meta_by_id`: the last insertion for a key wins. -/
def metaGet (fvgs : List Fvg) (k : String) : Option PTS :=
  (fvgMetaPairs fvgs).foldl (fun acc kv => if kv.1 = k then some kv.2 else acc) none

/-- Stable insertion of a bar into a list sorted by instant. -/
def insertByTs (b : Bar) : List Bar → List Bar
  | [] => [b]
  | x :: xs =>
    if x.ts_event ≤ b.ts_event then x :: insertByTs b xs else b :: x :: xs

/-- Pandas `.sort_values("ts_event")`: sort a bar list ascending by instant
(a stable comparison sort; the series invariant rules out duplicate
instants, so the choice of sorting algorithm is immaterial). -/
def sortByTs : List Bar → List Bar
  | [] => []
  | x :: xs => insertByTs x (sortByTs xs)

/-- Slice `df_5m[df_5m["ts_event"] >= start].sort_values("ts_event")`: the anchored
slice a buy signal is indexed into.  The filter is over the FULL series. -/
def sliceFrom (df : List Bar) (p : PTS) : List Bar :=
  sortByTs (df.filter (fun b => barGe b.ts_event p))

/-- The per-signal body of the buy-marker loop of `build_chart` (lines
314-353): guards in source order, then slice, length check, and zero-based
indexing; yields `(instant, close price, abbreviated label)`. -/
def markerOf (df : List Bar) (fvgs : List Fvg) (sig : TradeSignal) :
    Option (Int × Rat × String) :=
  let fid := sig.fvg_5m_id.getD ""
  if fid = "" then none
  else
    match sig.index_valid_close_after_touch with
    | none => none
    | some n =>
      if n ≤ 0 then none
      else if sig.signal ≠ "buy_long" ∧ sig.signal ≠ "buy_short" then none
      else
        match metaGet fvgs fid with
        | none => none
        | some st =>
          let sl := sliceFrom df st
          if sl.length ≤ n.toNat then none
          else
            (sl[n.toNat]?).map fun b =>
              (b.ts_event, b.close, if sig.signal = "buy_long" then "buy_l" else "buy_s")

/-- All buy markers, in signal order. -/
def buyMarkers (df : List Bar) (ev : Event) : List (Int × Rat × String) :=
  ev.trade_signals.filterMap (markerOf df ev.fvg_5m_in_window)

/-- The touch marker (lines 190-203): drawn iff `parse_ts(touch.ts_event)`
passes `is not None` (so possibly at `NaT`) and the price is present. -/
def touchMarker (t : Touch) : Option (PTS × Rat) :=
  let ts := parse_ts t.ts_event
  match t.price_touched with
  | some p => if notNone ts then some (ts, p) else none
  | none => none

/-- The BOS marker list (lines 208-218): one point per break whose instant
passes `is not None`; the y value may be missing (plotly accepts `None`). -/
def bosMarkers (bos : List Bos) : List (PTS × Option Rat × String) :=
  bos.filterMap fun b =>
    let ts := parse_ts b.ts_event
    if notNone ts then some (ts, b.trigger_close, b.bos_direction) else none

/-- The imbalance label with optional first-touch / confirm indices. -/
def fvgLabel (f : Fvg) : String :=
  match f.index_first_touch, f.index_valid_close_after_touch with
  | some ft, some ct =>
      f.fvg_5m_id ++ " (FT" ++ toString ft ++ "/CT" ++ toString ct ++ ")"
  | some ft, none => f.fvg_5m_id ++ " (FT" ++ toString ft ++ ")"
  | none, some ct => f.fvg_5m_id ++ " (CT" ++ toString ct ++ ")"
  | none, none => f.fvg_5m_id

/-- The imbalance point markers (midpoint of the price interval), for
imbalances passing the `start_time is None` and price-bound guards. -/
def fvgMarks (fvgs : List Fvg) : List (PTS × Rat × String) :=
  fvgs.filterMap fun f =>
    let st := parse_ts f.start_time
    if st = PTS.none then none
    else
      match f.begin_bound, f.end_bound with
      | some b, some e => some (st, (b + e) / 2, fvgLabel f)
      | _, _ => none

/-- Largest instant of a bar list (`df["ts_event"].max()`), `none` if empty. -/
def maxTs (l : List Bar) : Option Int :=
  (l.map Bar.ts_event).max?

/-- Smallest instant of a bar list, `none` if empty. -/
def minTs (l : List Bar) : Option Int :=
  (l.map Bar.ts_event).min?

/-- The shaded imbalance rectangles: from each surviving imbalance's start to
the right edge `x1` of the windowed series; none are drawn when the windowed
series is empty (`x1 = none`). -/
def fvgRects (x1 : Option Int) (fvgs : List Fvg) :
    List (PTS × Int × Rat × Rat) :=
  match x1 with
  | none => []
  | some x =>
    fvgs.filterMap fun f =>
      let st := parse_ts f.start_time
      if st = PTS.none then none
      else
        match f.begin_bound, f.end_bound with
        | some b, some e => some (st, x, min b e, max b e)
        | _, _ => none

/-- The sell (exit) markers (lines 380-388): Python truthiness on the exit
kind and exit instant (`NaT` is a plain object, hence truthy), plus an
`is not None` test on the exit price. -/
def ptsTruthy : PTS → Bool
  | PTS.none => false
  | _ => true

/-- See `ptsTruthy`; one marker per signal with explicit exit data. -/
def sellMarkers (sigs : List TradeSignal) : List (PTS × Rat × String) :=
  sigs.filterMap fun sig =>
    match sig.exit_signal with
    | some es =>
      if es = "" then none
      else
        let ex := parse_ts sig.exit_ts
        if ptsTruthy ex then
          match sig.exit_price with
          | some p => some (ex, p, es)
          | none => none
        else none
    | none => none

/-- The hourly reference band (lines 411-426): drawn iff both bounds are
present and the windowed series is nonempty; spans the visible time range. -/
def hourlyBand (dfw : List Bar) (h : Hourly) : Option (Int × Int × Rat × Rat) :=
  match h.begin_bound, h.end_bound, minTs dfw, maxTs dfw with
  | some b, some e, some x0, some x1 => some (x0, x1, min b e, max b e)
  | _, _, _, _ => none

/-- The BOS-window vertical guides (lines 431-439): one per bound passing
`is not None` (a `NaT` bound produces a guide at `NaT`). -/
def vlineList (w : Window) : List PTS :=
  ([parse_ts w.bos_window_start, parse_ts w.bos_window_end]).filter notNone

/-- Everything `build_chart` hands to the chart sink. -/
structure Chart where
  candles : List Bar
  touch : Option (PTS × Rat)
  bos : List (PTS × Option Rat × String)
  fvgMarks : List (PTS × Rat × String)
  fvgRects : List (PTS × Int × Rat × Rat)
  buys : List (Int × Rat × String)
  sells : List (PTS × Rat × String)
  hourly : Option (Int × Int × Rat × Rat)
  guides : List PTS
deriving DecidableEq

/-- Function `build_chart` from `src/app.py`: resolve the window, post-extend its end
over trade-signal exits, window the series, and build every layer.  Buy
markers index into the FULL series `df`; the rectangles and the hourly band
use the windowed series for their horizontal extent. -/
def build_chart (df : List Bar) (ev : Event) : Chart :=
  let w := resolvedWindow ev
  let dfw := windowedSeries df w
  { candles := dfw
  , touch := touchMarker ev.touch
  , bos := bosMarkers ev.bos_5m_in_window
  , fvgMarks := fvgMarks ev.fvg_5m_in_window
  , fvgRects := fvgRects (maxTs dfw) ev.fvg_5m_in_window
  , buys := buyMarkers df ev
  , sells := sellMarkers ev.trade_signals
  , hourly := hourlyBand dfw ev.hourly_fvg
  , guides := vlineList ev.window }

/-- An event record with every field absent. -/
def evEmpty : Event :=
  { window := { bos_window_start := RawTS.null, bos_window_end := RawTS.null }
  , touch := { window_start := RawTS.null, window_end := RawTS.null
             , ts_event := RawTS.null, price_touched := none }
  , fvg_5m_in_window := []
  , bos_5m_in_window := []
  , hourly_fvg := { begin_bound := none, end_bound := none }
  , trade_signals := [] }

/-!
Concrete inputs.  Instants are minutes since 2024-01-01T00:00Z, so
2024-01-02T00:00Z = 1440, 01:00Z = 1500, 01:10Z = 1510, 01:20Z = 1520,
02:10Z = 1570, 23:55Z = 2875 and 2024-01-01T23:00Z = 1380.
-/

/-- The 5-minute series of the concrete scenario: one bar every 5 minutes
from 2024-01-02T00:00Z through 2024-01-02T23:55Z (288 bars); bar `i` closes
at price `100 + i`. -/
def series288 : List Bar :=
  (List.range 288).map fun i =>
    { ts_event := 1440 + 5 * (i : Int)
    , open_ := (100 + i : Int)
    , high := (101 + i : Int)
    , low := (99 + i : Int)
    , close := (100 + i : Int) }

/-- The event record of the concrete scenario: structure-break window
[00:00Z, 01:00Z], one imbalance starting 01:10Z with price bounds [100, 102],
one entry signal anchored to it with offset 2 and no exit. -/
def evC2 : Event :=
  { evEmpty with
    window := { bos_window_start := RawTS.valid 1440
              , bos_window_end := RawTS.valid 1500 }
  , fvg_5m_in_window :=
      [ { start_time := RawTS.valid 1510, begin_bound := some 100
        , end_bound := some 102, fvg_5m_id := "F1"
        , index_first_touch := none, index_valid_close_after_touch := none } ]
  , trade_signals :=
      [ { signal := "buy_long", fvg_5m_id := some "F1"
        , index_valid_close_after_touch := some 2
        , exit_signal := none, exit_ts := RawTS.null, exit_price := none } ] }

/-- The fold inside `pyMin` returns its accumulator or a list element. -/
lemma foldlMin_mem (xs : List PTS) (a : PTS) :
    xs.foldl (fun acc y => if ptsLt y acc then y else acc) a = a
      ∨ xs.foldl (fun acc y => if ptsLt y acc then y else acc) a ∈ xs := by
  induction xs generalizing a with
  | nil => exact Or.inl rfl
  | cons x xs ih =>
    rw [List.foldl_cons]
    rcases ih (if ptsLt x a then x else a) with h | h
    · rw [h]
      by_cases hx : ptsLt x a
      · rw [if_pos hx]
        exact Or.inr (List.mem_cons_self x xs)
      · rw [if_neg hx]
        exact Or.inl rfl
    · exact Or.inr (List.mem_cons_of_mem x h)

/-- The fold inside `pyMax` returns its accumulator or a list element. -/
lemma foldlMax_mem (xs : List PTS) (a : PTS) :
    xs.foldl (fun acc y => if ptsGt y acc then y else acc) a = a
      ∨ xs.foldl (fun acc y => if ptsGt y acc then y else acc) a ∈ xs := by
  induction xs generalizing a with
  | nil => exact Or.inl rfl
  | cons x xs ih =>
    rw [List.foldl_cons]
    rcases ih (if ptsGt x a then x else a) with h | h
    · rw [h]
      by_cases hx : ptsGt x a
      · rw [if_pos hx]
        exact Or.inr (List.mem_cons_self x xs)
      · rw [if_neg hx]
        exact Or.inl rfl
    · exact Or.inr (List.mem_cons_of_mem x h)

/-- Python `min` of a nonempty list is one of its elements. -/
lemma pyMin_mem (l : List PTS) (h : l ≠ []) : pyMin l ∈ l := by
  cases l with
  | nil => exact absurd rfl h
  | cons x xs =>
    rcases foldlMin_mem xs x with h1 | h1
    · rw [pyMin, h1]
      exact List.mem_cons_self x xs
    · exact List.mem_cons_of_mem x (by rw [pyMin]; exact h1)

/-- Python `max` of a nonempty list is one of its elements. -/
lemma pyMax_mem (l : List PTS) (h : l ≠ []) : pyMax l ∈ l := by
  cases l with
  | nil => exact absurd rfl h
  | cons x xs =>
    rcases foldlMax_mem xs x with h1 | h1
    · rw [pyMax, h1]
      exact List.mem_cons_self x xs
    · exact List.mem_cons_of_mem x (by rw [pyMax]; exact h1)

/-- On a list of genuine instants the `pyMin` fold computes the true minimum. -/
lemma foldlMin_spec (xs : List PTS) (a : Int)
    (ht : ∀ p ∈ xs, isTime p = true) :
    ∃ m, xs.foldl (fun acc y => if ptsLt y acc then y else acc) (PTS.time a)
          = PTS.time m
      ∧ m ≤ a ∧ (∀ t, PTS.time t ∈ xs → m ≤ t)
      ∧ (m = a ∨ PTS.time m ∈ xs) := by
  induction xs generalizing a with
  | nil => exact ⟨a, rfl, le_refl a, by simp, Or.inl rfl⟩
  | cons x xs ih =>
    have hx : isTime x = true := ht x (List.mem_cons_self x xs)
    obtain ⟨tx, rfl⟩ : ∃ tx, x = PTS.time tx := by
      cases x with
      | time t => exact ⟨t, rfl⟩
      | none => exact absurd hx (by simp [isTime])
      | nat => exact absurd hx (by simp [isTime])
    have ht2 : ∀ p ∈ xs, isTime p = true :=
      fun p hp => ht p (List.mem_cons_of_mem _ hp)
    rw [List.foldl_cons]
    by_cases hlt : tx < a
    · rw [if_pos (by simp [ptsLt]; exact hlt)]
      obtain ⟨m, h1, h2, h3, h4⟩ := ih tx ht2
      refine ⟨m, h1, le_trans h2 (le_of_lt hlt), ?_, ?_⟩
      · intro t htm
        rcases List.mem_cons.1 htm with heq | hmem
        · cases heq
          exact h2
        · exact h3 t hmem
      · rcases h4 with rfl | h4
        · exact Or.inr (List.mem_cons_self _ _)
        · exact Or.inr (List.mem_cons_of_mem _ h4)
    · rw [if_neg (by simp [ptsLt]; omega)]
      obtain ⟨m, h1, h2, h3, h4⟩ := ih a ht2
      refine ⟨m, h1, h2, ?_, ?_⟩
      · intro t htm
        rcases List.mem_cons.1 htm with heq | hmem
        · cases heq
          omega
        · exact h3 t hmem
      · rcases h4 with rfl | h4
        · exact Or.inl rfl
        · exact Or.inr (List.mem_cons_of_mem _ h4)

/-- On a list of genuine instants the `pyMax` fold computes the true maximum. -/
lemma foldlMax_spec (xs : List PTS) (a : Int)
    (ht : ∀ p ∈ xs, isTime p = true) :
    ∃ m, xs.foldl (fun acc y => if ptsGt y acc then y else acc) (PTS.time a)
          = PTS.time m
      ∧ a ≤ m ∧ (∀ t, PTS.time t ∈ xs → t ≤ m)
      ∧ (m = a ∨ PTS.time m ∈ xs) := by
  induction xs generalizing a with
  | nil => exact ⟨a, rfl, le_refl a, by simp, Or.inl rfl⟩
  | cons x xs ih =>
    have hx : isTime x = true := ht x (List.mem_cons_self x xs)
    obtain ⟨tx, rfl⟩ : ∃ tx, x = PTS.time tx := by
      cases x with
      | time t => exact ⟨t, rfl⟩
      | none => exact absurd hx (by simp [isTime])
      | nat => exact absurd hx (by simp [isTime])
    have ht2 : ∀ p ∈ xs, isTime p = true :=
      fun p hp => ht p (List.mem_cons_of_mem _ hp)
    rw [List.foldl_cons]
    by_cases hlt : a < tx
    · rw [if_pos (by simp [ptsGt]; exact hlt)]
      obtain ⟨m, h1, h2, h3, h4⟩ := ih tx ht2
      refine ⟨m, h1, le_trans (le_of_lt hlt) h2, ?_, ?_⟩
      · intro t htm
        rcases List.mem_cons.1 htm with heq | hmem
        · cases heq
          exact h2
        · exact h3 t hmem
      · rcases h4 with rfl | h4
        · exact Or.inr (List.mem_cons_self _ _)
        · exact Or.inr (List.mem_cons_of_mem _ h4)
    · rw [if_neg (by simp [ptsGt]; omega)]
      obtain ⟨m, h1, h2, h3, h4⟩ := ih a ht2
      refine ⟨m, h1, h2, ?_, ?_⟩
      · intro t htm
        rcases List.mem_cons.1 htm with heq | hmem
        · cases heq
          omega
        · exact h3 t hmem
      · rcases h4 with rfl | h4
        · exact Or.inl rfl
        · exact Or.inr (List.mem_cons_of_mem _ h4)

/-- Python `min` of a nonempty list of genuine instants: an attained lower
bound. -/
lemma pyMin_spec (l : List PTS) (hne : l ≠ [])
    (ht : ∀ p ∈ l, isTime p = true) :
    ∃ m, pyMin l = PTS.time m ∧ PTS.time m ∈ l
      ∧ ∀ t, PTS.time t ∈ l → m ≤ t := by
  cases l with
  | nil => exact absurd rfl hne
  | cons x xs =>
    have hx : isTime x = true := ht x (List.mem_cons_self x xs)
    obtain ⟨tx, rfl⟩ : ∃ tx, x = PTS.time tx := by
      cases x with
      | time t => exact ⟨t, rfl⟩
      | none => exact absurd hx (by simp [isTime])
      | nat => exact absurd hx (by simp [isTime])
    obtain ⟨m, h1, h2, h3, h4⟩ :=
      foldlMin_spec xs tx (fun p hp => ht p (List.mem_cons_of_mem _ hp))
    refine ⟨m, by rw [pyMin]; exact h1, ?_, ?_⟩
    · rcases h4 with rfl | h4
      · exact List.mem_cons_self _ _
      · exact List.mem_cons_of_mem _ h4
    · intro t htm
      rcases List.mem_cons.1 htm with heq | hmem
      · cases heq
        exact h2
      · exact h3 t hmem

/-- Python `max` of a nonempty list of genuine instants: an attained upper
bound. -/
lemma pyMax_spec (l : List PTS) (hne : l ≠ [])
    (ht : ∀ p ∈ l, isTime p = true) :
    ∃ m, pyMax l = PTS.time m ∧ PTS.time m ∈ l
      ∧ ∀ t, PTS.time t ∈ l → t ≤ m := by
  cases l with
  | nil => exact absurd rfl hne
  | cons x xs =>
    have hx : isTime x = true := ht x (List.mem_cons_self x xs)
    obtain ⟨tx, rfl⟩ : ∃ tx, x = PTS.time tx := by
      cases x with
      | time t => exact ⟨t, rfl⟩
      | none => exact absurd hx (by simp [isTime])
      | nat => exact absurd hx (by simp [isTime])
    obtain ⟨m, h1, h2, h3, h4⟩ :=
      foldlMax_spec xs tx (fun p hp => ht p (List.mem_cons_of_mem _ hp))
    refine ⟨m, by rw [pyMax]; exact h1, ?_, ?_⟩
    · rcases h4 with rfl | h4
      · exact List.mem_cons_self _ _
      · exact List.mem_cons_of_mem _ h4
    · intro t htm
      rcases List.mem_cons.1 htm with heq | hmem
      · cases heq
        exact h2
      · exact h3 t hmem

/-- Every collected candidate passed the `is not None` test. -/
lemma mem_candidatesStart_notNone (ev : Event) (p : PTS)
    (h : p ∈ candidatesStart ev) : notNone p = true :=
  (List.mem_filter.1 h).2

/-- Every collected candidate passed the `is not None` test. -/
lemma mem_candidatesEnd_notNone (ev : Event) (p : PTS)
    (h : p ∈ candidatesEnd ev) : notNone p = true :=
  (List.mem_filter.1 h).2

/-- With both candidate lists nonempty, `get_time_window` takes the padded
min/max branch. -/
lemma gtw_of_nonempty (ev : Event)
    (hs : candidatesStart ev ≠ []) (he : candidatesEnd ev ≠ []) :
    get_time_window ev =
      (ptsSub (pyMin (candidatesStart ev)) 60,
       ptsAdd (pyMax (candidatesEnd ev)) 60) := by
  simp [get_time_window, hs, he]

/-- An event whose only candidates are a structure-break-window start at
instant 1600 and a touch at instant 1000; the window start candidate lies
10 hours after everything else. -/
def evC1x : Event :=
  { evEmpty with
    window := { bos_window_start := RawTS.valid 1600
              , bos_window_end := RawTS.null }
  , touch := { evEmpty.touch with ts_event := RawTS.valid 1000 } }

/-- C1 counterexample: the claim asserts that every candidate instant lies
between the resolved start and end.  For `evC1x` the resolved window is
[940, 1060] (driven by the touch at 1000), yet the structure-break-window
start 1600 is a candidate instant and 1600 ≤ 1060 is false: a start-only
candidate can exceed the resolved end, because the end is the padded maximum
of the END candidates only. -/
theorem C1_counterexample :
    get_time_window evC1x = (PTS.time 940, PTS.time 1060)
    ∧ PTS.time 1600 ∈ candidatesStart evC1x
    ∧ ¬ ((1600 : Int) ≤ 1060) := by
  decide

/-- C1 amended: for every event record with no malformed timestamps and both
candidate lists nonempty, the resolved window is exactly
(min of start candidates − 1h, max of end candidates + 1h); hence the start
bounds every START candidate from below and the end bounds every END
candidate from above (a start-only candidate may still exceed the end, and
an end-only candidate may precede the start, as `C1_counterexample` shows). -/
theorem C1_padded_minmax (ev : Event)
    (hs : candidatesStart ev ≠ []) (he : candidatesEnd ev ≠ [])
    (hts : ∀ p ∈ candidatesStart ev, isTime p = true)
    (hte : ∀ p ∈ candidatesEnd ev, isTime p = true) :
    ∃ a b, get_time_window ev = (PTS.time a, PTS.time b)
      ∧ PTS.time (a + 60) ∈ candidatesStart ev
      ∧ (∀ t, PTS.time t ∈ candidatesStart ev → a + 60 ≤ t)
      ∧ PTS.time (b - 60) ∈ candidatesEnd ev
      ∧ (∀ t, PTS.time t ∈ candidatesEnd ev → t ≤ b - 60)
      ∧ (∀ t, PTS.time t ∈ candidatesStart ev → a ≤ t)
      ∧ (∀ t, PTS.time t ∈ candidatesEnd ev → t ≤ b) := by
  obtain ⟨m, hm1, hm2, hm3⟩ := pyMin_spec _ hs hts
  obtain ⟨M, hM1, hM2, hM3⟩ := pyMax_spec _ he hte
  refine ⟨m - 60, M + 60, ?_, ?_, ?_, ?_, ?_, ?_, ?_⟩
  · rw [gtw_of_nonempty ev hs he, hm1, hM1]
    rfl
  · have h : m - 60 + 60 = m := by omega
    rw [h]
    exact hm2
  · intro t htm
    have := hm3 t htm
    omega
  · have h : M + 60 - 60 = M := by omega
    rw [h]
    exact hM2
  · intro t htm
    have := hM3 t htm
    omega
  · intro t htm
    have := hm3 t htm
    omega
  · intro t htm
    have := hM3 t htm
    omega

/-- An event whose only resolvable instant is a touch at instant 1000. -/
def evC1w : Event :=
  { evEmpty with touch := { evEmpty.touch with ts_event := RawTS.valid 1000 } }

/-- Witness for `C1_padded_minmax` at the concrete event `evC1w`. -/
theorem C1_padded_minmax_witness :
    ∃ a b, get_time_window evC1w = (PTS.time a, PTS.time b)
      ∧ PTS.time (a + 60) ∈ candidatesStart evC1w
      ∧ (∀ t, PTS.time t ∈ candidatesStart evC1w → a + 60 ≤ t)
      ∧ PTS.time (b - 60) ∈ candidatesEnd evC1w
      ∧ (∀ t, PTS.time t ∈ candidatesEnd evC1w → t ≤ b - 60)
      ∧ (∀ t, PTS.time t ∈ candidatesStart evC1w → a ≤ t)
      ∧ (∀ t, PTS.time t ∈ candidatesEnd evC1w → t ≤ b) :=
  C1_padded_minmax evC1w (by decide) (by decide) (by decide) (by decide)

/-- Subtracting a padding from a value that passed `is not None` cannot give
Python `None`. -/
lemma ptsSub_ne_none (p : PTS) (h : notNone p = true) :
    ptsSub p 60 ≠ PTS.none := by
  cases p with
  | none => simp [notNone] at h
  | nat => simp [ptsSub]
  | time t => simp [ptsSub]

/-- An event whose only populated field is the structure-break-window start:
its start-candidate list is nonempty but its end-candidate list is empty. -/
def evC5x : Event :=
  { evEmpty with
    window := { bos_window_start := RawTS.valid 1000
              , bos_window_end := RawTS.null } }

/-- C5 counterexample: the claim says the resolver returns (absent, absent)
exactly when BOTH candidate sets are empty and otherwise computes padded
bounds.  For `evC5x` a candidate instant exists (the start-candidate list is
[1000]), yet the resolver returns (absent, absent), because the code bails
out when EITHER list is empty. -/
theorem C5_counterexample :
    get_time_window evC5x = (PTS.none, PTS.none)
    ∧ candidatesStart evC5x = [PTS.time 1000]
    ∧ candidatesStart evC5x ≠ [] := by
  decide

/-- C5 amended: the resolver returns (absent, absent) exactly when EITHER
candidate list is empty; when both are nonempty it returns the padded
min/max bounds; and whenever the resolved start is absent — in particular
for a record with no resolvable instants anywhere — the windowed series is
the full series. -/
theorem C5_empty_candidate_fallback (ev : Event) (df : List Bar) :
    (get_time_window ev = (PTS.none, PTS.none) ↔
      (candidatesStart ev = [] ∨ candidatesEnd ev = []))
    ∧ (candidatesStart ev ≠ [] → candidatesEnd ev ≠ [] →
        get_time_window ev =
          (ptsSub (pyMin (candidatesStart ev)) 60,
           ptsAdd (pyMax (candidatesEnd ev)) 60))
    ∧ ((get_time_window ev).1 = PTS.none →
        windowedSeries df (resolvedWindow ev) = df) := by
  refine ⟨⟨?_, ?_⟩, ?_, ?_⟩
  · intro h
    by_contra hc
    push_neg at hc
    obtain ⟨h1, h2⟩ := hc
    rw [gtw_of_nonempty ev h1 h2] at h
    have hmem := pyMin_mem _ h1
    have hnn := mem_candidatesStart_notNone ev _ hmem
    exact ptsSub_ne_none _ hnn (congrArg Prod.fst h)
  · intro h
    simp [get_time_window, h]
  · intro h1 h2
    exact gtw_of_nonempty ev h1 h2
  · intro h1
    simp [windowedSeries, resolvedWindow, h1, notNone]

/-- A tiny concrete series used in the C5 witness. -/
def dfC5w : List Bar := [{ ts_event := 5, open_ := 1, high := 1, low := 1, close := 1 }]

/-- Witness for `C5_empty_candidate_fallback`: for the all-absent event the
resolver's start is absent and the windowed series is the full series. -/
theorem C5_empty_candidate_fallback_witness :
    windowedSeries dfC5w (resolvedWindow evEmpty) = dfC5w :=
  (C5_empty_candidate_fallback evEmpty dfC5w).2.2 (by decide)

/-- An event with a malformed structure-break-window start and a valid touch
at instant 1000. -/
def evC4bad : Event :=
  { evEmpty with
    window := { bos_window_start := RawTS.malformed
              , bos_window_end := RawTS.null }
  , touch := { evEmpty.touch with ts_event := RawTS.valid 1000 } }

/-- The same event with the malformed field missing instead. -/
def evC4fix : Event :=
  { evC4bad with
    window := { bos_window_start := RawTS.null, bos_window_end := RawTS.null } }

/-- A three-bar series around the touch instant of `evC4bad`. -/
def dfC4 : List Bar :=
  [ { ts_event := 940, open_ := 1, high := 1, low := 1, close := 1 }
  , { ts_event := 1000, open_ := 2, high := 2, low := 2, close := 2 }
  , { ts_event := 1060, open_ := 3, high := 3, low := 3, close := 3 } ]

/-- C4 evidence: the normalizer itself is total and maps null and malformed
input to an absent value (`None` resp. `NaT`), but a malformed timestamp does
NOT contribute nothing to window resolution: `NaT` passes the code's
`is not None` test, enters the start-candidate list of `evC4bad`, wins the
Python `min` (every comparison against `NaT` is `False` and `NaT` is the
first candidate), and turns the resolved start into `NaT` — so the windowed
series becomes empty, whereas with the malformed field simply missing
(`evC4fix`) resolution yields [940, 1060] and keeps all three bars. -/
theorem C4_malformed_poisons_resolution :
    parse_ts RawTS.null = PTS.none
    ∧ parse_ts RawTS.malformed = PTS.nat
    ∧ PTS.nat ∈ candidatesStart evC4bad
    ∧ get_time_window evC4bad = (PTS.nat, PTS.time 1060)
    ∧ get_time_window evC4fix = (PTS.time 940, PTS.time 1060)
    ∧ windowedSeries dfC4 (resolvedWindow evC4bad) = []
    ∧ windowedSeries dfC4 (resolvedWindow evC4fix) = dfC4 := by
  decide

/-- A trade signal carrying only a resolvable exit at instant 2000. -/
def sigC10 : TradeSignal :=
  { signal := "", fvg_5m_id := none, index_valid_close_after_touch := none
  , exit_signal := none, exit_ts := RawTS.valid 2000, exit_price := none }

/-- An event with no window candidates but one signal with a resolvable
exit. -/
def evC10x : Event := { evEmpty with trade_signals := [sigC10] }

/-- C10 counterexample: the claim says the pair is never exactly-one-present,
but for an event with no window candidates and a signal with a resolvable
exit the post-extension produces an absent start paired with the present end
exit + 1h. -/
theorem C10_counterexample :
    (resolvedWindow evC10x).1 = PTS.none
    ∧ (resolvedWindow evC10x).2 = PTS.time 2060 := by
  decide

/-- C10 amended: the resolver itself (before the exit post-extension) is
shape-consistent on records with no malformed timestamps — both bounds
present or both absent — and whenever the start is absent the windower
ignores the (possibly post-extended) end and falls back to the full
series. -/
theorem C10_shape (ev : Event) (df : List Bar) (e : PTS)
    (hcs : ∀ p ∈ candidatesStart ev, p ≠ PTS.nat)
    (hce : ∀ p ∈ candidatesEnd ev, p ≠ PTS.nat) :
    (get_time_window ev = (PTS.none, PTS.none)
      ∨ ∃ a b, get_time_window ev = (PTS.time a, PTS.time b))
    ∧ windowedSeries df (PTS.none, e) = df := by
  constructor
  · by_cases h : candidatesStart ev = [] ∨ candidatesEnd ev = []
    · left
      simp [get_time_window, h]
    · push_neg at h
      obtain ⟨h1, h2⟩ := h
      right
      have hm := pyMin_mem _ h1
      have hM := pyMax_mem _ h2
      have hmn := mem_candidatesStart_notNone ev _ hm
      have hMn := mem_candidatesEnd_notNone ev _ hM
      have hmnat := hcs _ hm
      have hMnat := hce _ hM
      rw [gtw_of_nonempty ev h1 h2]
      cases hval : pyMin (candidatesStart ev) with
      | none =>
        rw [hval] at hmn
        simp [notNone] at hmn
      | nat => exact absurd hval hmnat
      | time a =>
        cases hval2 : pyMax (candidatesEnd ev) with
        | none =>
          rw [hval2] at hMn
          simp [notNone] at hMn
        | nat => exact absurd hval2 hMnat
        | time b =>
          exact ⟨a - 60, b + 60, rfl⟩
  · simp [windowedSeries, notNone]

/-- A tiny concrete series used in the C10 witness. -/
def dfC10w : List Bar := [{ ts_event := 7, open_ := 1, high := 1, low := 1, close := 1 }]

/-- Witness for `C10_shape` at the all-absent event. -/
theorem C10_shape_witness :
    (get_time_window evEmpty = (PTS.none, PTS.none)
      ∨ ∃ a b, get_time_window evEmpty = (PTS.time a, PTS.time b))
    ∧ windowedSeries dfC10w (PTS.none, PTS.time 9) = dfC10w :=
  C10_shape evEmpty dfC10w (PTS.time 9) (by decide) (by decide)

/-- Unfolding one step of the extension loop. -/
lemma extendEnd_cons (s : TradeSignal) (rest : List TradeSignal) (e : PTS) :
    extendEnd (s :: rest) e = extendEnd rest (exitStep e s) := rfl

/-- The extension step never turns a non-`NaT` end into `NaT` when the
signal's exit is not malformed. -/
lemma exitStep_ne_nat (e : PTS) (sig : TradeSignal)
    (he : e ≠ PTS.nat) (hs : parse_ts sig.exit_ts ≠ PTS.nat) :
    exitStep e sig ≠ PTS.nat := by
  cases hex : parse_ts sig.exit_ts with
  | none =>
    simpa [exitStep, hex, notNone] using he
  | nat => exact absurd hex hs
  | time u =>
    simp only [exitStep, hex, notNone, ptsAdd]
    by_cases hc : e = PTS.none ∨ ptsGt (PTS.time (u + 60)) e
    · rw [if_pos hc]
      simp
    · rw [if_neg hc]
      exact he

/-- Starting from a genuine instant, a clean extension loop ends at a genuine
instant that is no earlier. -/
lemma extendEnd_time_ge : ∀ (sigs : List TradeSignal),
    (∀ sig ∈ sigs, parse_ts sig.exit_ts ≠ PTS.nat) →
    ∀ s : Int, ∃ b, extendEnd sigs (PTS.time s) = PTS.time b ∧ s ≤ b := by
  intro sigs
  induction sigs with
  | nil => exact fun _ s => ⟨s, rfl, le_refl s⟩
  | cons sig rest ih =>
    intro hclean s
    have hrest : ∀ x ∈ rest, parse_ts x.exit_ts ≠ PTS.nat :=
      fun x hx => hclean x (List.mem_cons_of_mem _ hx)
    rw [extendEnd_cons]
    cases hex : parse_ts sig.exit_ts with
    | none =>
      have hstep : exitStep (PTS.time s) sig = PTS.time s := by
        simp [exitStep, hex, notNone]
      rw [hstep]
      exact ih hrest s
    | nat => exact absurd hex (hclean sig (List.mem_cons_self _ _))
    | time u =>
      by_cases hlt : s < u + 60
      · have hstep : exitStep (PTS.time s) sig = PTS.time (u + 60) := by
          simp [exitStep, hex, notNone, ptsAdd, ptsGt, hlt]
        rw [hstep]
        obtain ⟨b, hb1, hb2⟩ := ih hrest (u + 60)
        exact ⟨b, hb1, by omega⟩
      · have hstep : exitStep (PTS.time s) sig = PTS.time s := by
          simp [exitStep, hex, notNone, ptsAdd, ptsGt, hlt]
        rw [hstep]
        exact ih hrest s

/-- On a clean record the extension loop covers every resolvable exit:
the final end is a genuine instant at least `exit + 1h`. -/
lemma extendEnd_covers : ∀ (sigs : List TradeSignal) (e0 : PTS),
    e0 ≠ PTS.nat →
    (∀ sig ∈ sigs, parse_ts sig.exit_ts ≠ PTS.nat) →
    ∀ sig ∈ sigs, ∀ t : Int, parse_ts sig.exit_ts = PTS.time t →
    ∃ b, extendEnd sigs e0 = PTS.time b ∧ t + 60 ≤ b := by
  intro sigs
  induction sigs with
  | nil =>
    intro e0 _ _ sig hmem
    cases hmem
  | cons s0 rest ih =>
    intro e0 h0 hclean sig hmem t ht
    have hs0 : parse_ts s0.exit_ts ≠ PTS.nat := hclean s0 (List.mem_cons_self _ _)
    have hrest : ∀ x ∈ rest, parse_ts x.exit_ts ≠ PTS.nat :=
      fun x hx => hclean x (List.mem_cons_of_mem _ hx)
    rw [extendEnd_cons]
    rcases List.mem_cons.1 hmem with rfl | hmem2
    · cases e0 with
      | nat => exact absurd rfl h0
      | none =>
        have hstep : exitStep PTS.none sig = PTS.time (t + 60) := by
          simp [exitStep, ht, notNone, ptsAdd]
        rw [hstep]
        exact extendEnd_time_ge rest hrest (t + 60)
      | time s =>
        by_cases hlt : s < t + 60
        · have hstep : exitStep (PTS.time s) sig = PTS.time (t + 60) := by
            simp [exitStep, ht, notNone, ptsAdd, ptsGt, hlt]
          rw [hstep]
          exact extendEnd_time_ge rest hrest (t + 60)
        · have hstep : exitStep (PTS.time s) sig = PTS.time s := by
            simp [exitStep, ht, notNone, ptsAdd, ptsGt, hlt]
          rw [hstep]
          obtain ⟨b, hb1, hb2⟩ := extendEnd_time_ge rest hrest s
          exact ⟨b, hb1, by omega⟩
    · exact ih (exitStep e0 s0) (exitStep_ne_nat e0 s0 h0 hs0) hrest sig hmem2 t ht

/-- On a record with no malformed end candidates the resolver's end bound is
never `NaT`. -/
lemma gtw_snd_ne_nat (ev : Event)
    (hce : ∀ p ∈ candidatesEnd ev, p ≠ PTS.nat) :
    (get_time_window ev).2 ≠ PTS.nat := by
  by_cases h : candidatesStart ev = [] ∨ candidatesEnd ev = []
  · simp [get_time_window, h]
  · push_neg at h
    obtain ⟨h1, h2⟩ := h
    rw [gtw_of_nonempty ev h1 h2]
    have hM := pyMax_mem _ h2
    have hMn := mem_candidatesEnd_notNone ev _ hM
    have hMnat := hce _ hM
    cases hval : pyMax (candidatesEnd ev) with
    | none =>
      rw [hval] at hMn
      simp [notNone] at hMn
    | nat => exact absurd hval hMnat
    | time b => simp [ptsAdd]

/-- A trade signal with a malformed exit timestamp. -/
def sigC6bad : TradeSignal :=
  { signal := "", fvg_5m_id := none, index_valid_close_after_touch := none
  , exit_signal := none, exit_ts := RawTS.malformed, exit_price := none }

/-- A trade signal with a resolvable exit at instant 2000. -/
def sigC6good : TradeSignal :=
  { signal := "", fvg_5m_id := none, index_valid_close_after_touch := none
  , exit_signal := none, exit_ts := RawTS.valid 2000, exit_price := none }

/-- An event with no window candidates, a malformed-exit signal first and a
resolvable-exit signal second. -/
def evC6x : Event := { evEmpty with trade_signals := [sigC6bad, sigC6good] }

/-- C6 counterexample: the claim asserts the final resolved end is ≥
exit + 1h for EVERY signal with a resolvable exit.  For `evC6x` the
malformed exit is processed first: `NaT` passes `is not None`, `NaT + 1h`
is `NaT`, and the end (previously `None`) becomes `NaT`; the later genuine
exit at 2000 cannot raise it because `2060 > NaT` is `False`.  The final end
is `NaT`, not an instant ≥ 2060 (the pandas comparison `2060 <= end`
evaluates to `False`). -/
theorem C6_counterexample :
    (resolvedWindow evC6x).2 = PTS.nat
    ∧ sigC6good ∈ evC6x.trade_signals
    ∧ parse_ts sigC6good.exit_ts = PTS.time 2000
    ∧ barLe 2060 (resolvedWindow evC6x).2 = false
    ∧ isTime (resolvedWindow evC6x).2 = false := by
  decide

/-- C6 amended: provided the record carries no malformed timestamps (no end
candidate and no trade-signal exit parses to `NaT`), after the
post-extension step the final resolved end is a genuine instant that is at
least `exit + 1h` for every signal with a resolvable exit instant. -/
theorem C6_exit_extension (ev : Event)
    (hce : ∀ p ∈ candidatesEnd ev, p ≠ PTS.nat)
    (hclean : ∀ sig ∈ ev.trade_signals, parse_ts sig.exit_ts ≠ PTS.nat) :
    ∀ sig ∈ ev.trade_signals, ∀ t : Int, parse_ts sig.exit_ts = PTS.time t →
    ∃ b, (resolvedWindow ev).2 = PTS.time b ∧ t + 60 ≤ b := by
  intro sig hmem t ht
  exact extendEnd_covers ev.trade_signals (get_time_window ev).2
    (gtw_snd_ne_nat ev hce) hclean sig hmem t ht

/-- A trade signal whose exit, at instant 1620, lies 3 hours past the
structural candidate below. -/
def sigC6w : TradeSignal :=
  { signal := "", fvg_5m_id := none, index_valid_close_after_touch := none
  , exit_signal := none, exit_ts := RawTS.valid 1620, exit_price := none }

/-- An event with a touch at 1440 (structural end 1500 after padding) and an
exit 3 hours past the touch. -/
def evC6w : Event :=
  { evEmpty with
    touch := { evEmpty.touch with ts_event := RawTS.valid 1440 }
  , trade_signals := [sigC6w] }

/-- Witness for `C6_exit_extension`: the structural window of `evC6w` ends at
1500, the exit at 1620 forces the final end to ≥ 1680 = exit + 1h. -/
theorem C6_exit_extension_witness :
    ∃ b, (resolvedWindow evC6w).2 = PTS.time b ∧ 1620 + 60 ≤ b :=
  C6_exit_extension evC6w (by decide) (by decide) sigC6w (by decide) 1620
    (by decide)

/-- Membership test used by the series windower for present bounds. -/
def inWindow (a b : Int) (bar : Bar) : Bool :=
  decide (a ≤ bar.ts_event) && decide (bar.ts_event ≤ b)

/-- A bar list in ascending instant order. -/
def tsSorted (l : List Bar) : Prop :=
  l.Pairwise (fun u v => u.ts_event ≤ v.ts_event)

/-- In a sorted list whose every instant is ≥ the window start, the in-window
bars form a prefix. -/
lemma filter_window_prefix (a b : Int) : ∀ (l : List Bar), tsSorted l →
    (∀ y ∈ l, a ≤ y.ts_event) →
    ∃ post, l.filter (inWindow a b) ++ post = l := by
  intro l
  induction l with
  | nil => exact fun _ _ => ⟨[], rfl⟩
  | cons y ys ih =>
    intro hs hb
    have hy : a ≤ y.ts_event := hb y (List.mem_cons_self _ _)
    rcases List.pairwise_cons.1 hs with ⟨hy2, hys⟩
    by_cases hyb : y.ts_event ≤ b
    · have hstep : (y :: ys).filter (inWindow a b) = y :: ys.filter (inWindow a b) := by
        simp [List.filter_cons, inWindow, hy, hyb]
      obtain ⟨post, hpost⟩ := ih hys (fun z hz => hb z (List.mem_cons_of_mem _ hz))
      exact ⟨post, by rw [hstep, List.cons_append, hpost]⟩
    · have hall : (y :: ys).filter (inWindow a b) = [] := by
        rw [List.filter_eq_nil_iff]
        intro z hz
        rcases List.mem_cons.1 hz with rfl | hz2
        · simp [inWindow, hyb]
        · have h1 : y.ts_event ≤ z.ts_event := hy2 z hz2
          have h2 : ¬ z.ts_event ≤ b := by omega
          simp [inWindow, h2]
      exact ⟨y :: ys, by rw [hall]; rfl⟩

/-- In a sorted list the in-window bars form a contiguous run. -/
lemma filter_window_contiguous (a b : Int) : ∀ (l : List Bar), tsSorted l →
    ∃ pre post, pre ++ l.filter (inWindow a b) ++ post = l := by
  intro l
  induction l with
  | nil => exact fun _ => ⟨[], [], rfl⟩
  | cons x xs ih =>
    intro hs
    rcases List.pairwise_cons.1 hs with ⟨hx, hxs⟩
    by_cases hpa : a ≤ x.ts_event
    · by_cases hpb : x.ts_event ≤ b
      · have hstep : (x :: xs).filter (inWindow a b) = x :: xs.filter (inWindow a b) := by
          simp [List.filter_cons, inWindow, hpa, hpb]
        obtain ⟨post, hpost⟩ :=
          filter_window_prefix a b xs hxs (fun z hz => le_trans hpa (hx z hz))
        exact ⟨[], post, by rw [List.nil_append, hstep, List.cons_append, hpost]⟩
      · have hall : (x :: xs).filter (inWindow a b) = [] := by
          rw [List.filter_eq_nil_iff]
          intro z hz
          rcases List.mem_cons.1 hz with rfl | hz2
          · simp [inWindow, hpb]
          · have h1 : x.ts_event ≤ z.ts_event := hx z hz2
            have h2 : ¬ z.ts_event ≤ b := by omega
            simp [inWindow, h2]
        exact ⟨x :: xs, [], by rw [hall]; simp⟩
    · have hstep : (x :: xs).filter (inWindow a b) = xs.filter (inWindow a b) := by
        simp [List.filter_cons, inWindow, hpa]
      obtain ⟨pre, post, hpp⟩ := ih hxs
      exact ⟨x :: pre, post, by simp [hstep, List.append_assoc, hpp]⟩

/-- An event whose resolved window has a `NaT` start (malformed
structure-break-window start, touch at 3000). -/
def evC7x : Event :=
  { evEmpty with
    window := { bos_window_start := RawTS.malformed
              , bos_window_end := RawTS.null }
  , touch := { evEmpty.touch with ts_event := RawTS.valid 3000 } }

/-- A three-bar series around the touch instant of `evC7x`. -/
def dfC7 : List Bar :=
  [ { ts_event := 2940, open_ := 1, high := 1, low := 1, close := 1 }
  , { ts_event := 3000, open_ := 2, high := 2, low := 2, close := 2 }
  , { ts_event := 3060, open_ := 3, high := 3, low := 3, close := 3 } ]

/-- C7 counterexample: the claim says that when either bound is absent the
windowed series is the full series.  The resolved window of `evC7x` has the
absent (NaT, not a present instant) start produced by a malformed field, yet
the windower does NOT fall back: `NaT` passes `is not None`, the filter
applies, every pandas comparison against `NaT` is `False`, and the windowed
series is empty instead of the full series. -/
theorem C7_counterexample :
    resolvedWindow evC7x = (PTS.nat, PTS.time 3060)
    ∧ isTime PTS.nat = false
    ∧ windowedSeries dfC7 (resolvedWindow evC7x) = []
    ∧ dfC7 ≠ [] := by
  decide

/-- C7 amended: when both bounds are genuine instants the windowed series is
exactly the inclusive filter start ≤ instant ≤ end — an order-preserving
sub-sequence of the full series, contiguous whenever the series is sorted;
when either bound is Python `None` the full series is returned unmodified;
but when a bound is `NaT` (malformed input) and the other is not `None`, the
filter still applies and returns the EMPTY series. -/
theorem C7_windower (df : List Bar) (s e : PTS) :
    (∀ a b, s = PTS.time a → e = PTS.time b →
      windowedSeries df (s, e) = df.filter (inWindow a b)
      ∧ List.Sublist (windowedSeries df (s, e)) df
      ∧ (tsSorted df →
          ∃ pre post, pre ++ windowedSeries df (s, e) ++ post = df))
    ∧ ((s = PTS.none ∨ e = PTS.none) → windowedSeries df (s, e) = df)
    ∧ (((s = PTS.nat ∧ e ≠ PTS.none) ∨ (s ≠ PTS.none ∧ e = PTS.nat)) →
        windowedSeries df (s, e) = []) := by
  refine ⟨?_, ?_, ?_⟩
  · rintro a b rfl rfl
    refine ⟨rfl, List.filter_sublist df, ?_⟩
    intro hsort
    exact filter_window_contiguous a b df hsort
  · rintro (rfl | rfl)
    · simp [windowedSeries, notNone]
    · simp [windowedSeries, notNone]
  · rintro (⟨rfl, he⟩ | ⟨hs, rfl⟩)
    · cases e with
      | none => exact absurd rfl he
      | nat => simp [windowedSeries, notNone, barGe]
      | time b => simp [windowedSeries, notNone, barGe]
    · cases s with
      | none => exact absurd rfl hs
      | nat => simp [windowedSeries, notNone, barGe]
      | time a => simp [windowedSeries, notNone, barGe, barLe]

/-- A tiny sorted series used in the C7 witness. -/
def dfC7w : List Bar :=
  [ { ts_event := 10, open_ := 1, high := 1, low := 1, close := 1 }
  , { ts_event := 20, open_ := 2, high := 2, low := 2, close := 2 }
  , { ts_event := 30, open_ := 3, high := 3, low := 3, close := 3 } ]

/-- Witness for `C7_windower` with both bounds present. -/
theorem C7_windower_witness :
    windowedSeries dfC7w (PTS.time 15, PTS.time 25) = dfC7w.filter (inWindow 15 25)
    ∧ List.Sublist (windowedSeries dfC7w (PTS.time 15, PTS.time 25)) dfC7w :=
  ⟨((C7_windower dfC7w (PTS.time 15) (PTS.time 25)).1 15 25 rfl rfl).1,
   ((C7_windower dfC7w (PTS.time 15) (PTS.time 25)).1 15 25 rfl rfl).2.1⟩

/-- Membership through stable insertion. -/
lemma mem_insertByTs {b a : Bar} {l : List Bar} :
    a ∈ insertByTs b l ↔ a = b ∨ a ∈ l := by
  induction l with
  | nil => simp [insertByTs]
  | cons x xs ih =>
    by_cases h : x.ts_event ≤ b.ts_event
    · simp only [insertByTs, if_pos h, List.mem_cons, ih]
      tauto
    · simp only [insertByTs, if_neg h, List.mem_cons]

/-- Sorting does not change membership. -/
lemma mem_sortByTs {a : Bar} : ∀ {l : List Bar}, a ∈ sortByTs l ↔ a ∈ l := by
  intro l
  induction l with
  | nil => simp [sortByTs]
  | cons x xs ih => simp [sortByTs, mem_insertByTs, ih]

/-- Insertion preserves ascending order. -/
lemma pairwise_insertByTs (b : Bar) (l : List Bar)
    (h : l.Pairwise (fun u v => u.ts_event ≤ v.ts_event)) :
    (insertByTs b l).Pairwise (fun u v => u.ts_event ≤ v.ts_event) := by
  induction l with
  | nil => simp [insertByTs]
  | cons x xs ih =>
    rcases List.pairwise_cons.1 h with ⟨hx, hxs⟩
    by_cases hxb : x.ts_event ≤ b.ts_event
    · rw [insertByTs, if_pos hxb]
      refine List.pairwise_cons.2 ⟨?_, ih hxs⟩
      intro y hy
      rcases mem_insertByTs.1 hy with rfl | hy2
      · exact hxb
      · exact hx y hy2
    · rw [insertByTs, if_neg hxb]
      have hbx : b.ts_event ≤ x.ts_event := le_of_not_le hxb
      refine List.pairwise_cons.2 ⟨?_, h⟩
      intro y hy
      rcases List.mem_cons.1 hy with rfl | hy2
      · exact hbx
      · exact le_trans hbx (hx y hy2)

/-- The sort used in the signal reconstructor produces ascending order. -/
lemma tsSorted_sortByTs (l : List Bar) : tsSorted (sortByTs l) := by
  induction l with
  | nil => exact List.Pairwise.nil
  | cons x xs ih => exact pairwise_insertByTs x (sortByTs xs) ih

/-- The anchored slice is sorted ascending by instant. -/
lemma sliceFrom_sorted (df : List Bar) (p : PTS) : tsSorted (sliceFrom df p) :=
  tsSorted_sortByTs _

/-- Every bar of the anchored slice is at or after the anchor instant. -/
lemma sliceFrom_ge (df : List Bar) (p : PTS) (b : Bar)
    (hb : b ∈ sliceFrom df p) : barGe b.ts_event p = true :=
  (List.mem_filter.1 (mem_sortByTs.1 hb)).2

/-- C3: the buy-marker layer is the per-signal reconstruction mapped over
the trade signals; the anchored slice — the FULL unwindowed series filtered
to instants ≥ the anchor's start and sorted ascending — is indexed zero-based
at the declared offset, giving the bar's (instant, close price); an
out-of-range offset drops the signal; and signals failing the kind guard or
the positive-integer-offset guard are silently skipped. -/
theorem C3_offset_reconstruction :
    (∀ df ev, (build_chart df ev).buys =
        ev.trade_signals.filterMap (markerOf df ev.fvg_5m_in_window))
    ∧ (∀ df p, tsSorted (sliceFrom df p)
        ∧ ∀ b ∈ sliceFrom df p, barGe b.ts_event p = true)
    ∧ (∀ df fvgs sig fid n st,
        sig.fvg_5m_id = some fid → fid ≠ "" →
        sig.index_valid_close_after_touch = some n → 0 < n →
        (sig.signal = "buy_long" ∨ sig.signal = "buy_short") →
        metaGet fvgs fid = some st →
          ((sliceFrom df st).length ≤ n.toNat → markerOf df fvgs sig = none)
          ∧ ∀ h : n.toNat < (sliceFrom df st).length,
              markerOf df fvgs sig =
                some (((sliceFrom df st).get ⟨n.toNat, h⟩).ts_event,
                      ((sliceFrom df st).get ⟨n.toNat, h⟩).close,
                      if sig.signal = "buy_long" then "buy_l" else "buy_s"))
    ∧ (∀ df fvgs sig, sig.signal ≠ "buy_long" → sig.signal ≠ "buy_short" →
        markerOf df fvgs sig = none)
    ∧ (∀ df fvgs sig n, sig.index_valid_close_after_touch = some n → n ≤ 0 →
        markerOf df fvgs sig = none)
    ∧ (∀ df fvgs sig, sig.index_valid_close_after_touch = none →
        markerOf df fvgs sig = none) := by
  refine ⟨fun df ev => rfl, fun df p => ⟨sliceFrom_sorted df p, sliceFrom_ge df p⟩,
    ?_, ?_, ?_, ?_⟩
  · intro df fvgs sig fid n st h1 h2 h3 h4 h5 h6
    have h4n : ¬ n ≤ 0 := by omega
    have hk : ¬ (sig.signal ≠ "buy_long" ∧ sig.signal ≠ "buy_short") := by tauto
    constructor
    · intro hlen
      simp [markerOf, h1, h2, h3, h4n, hk, h6, hlen]
    · intro h
      have hlen : ¬ (sliceFrom df st).length ≤ n.toNat := by omega
      simp [markerOf, h1, h2, h3, h4n, hk, h6, hlen,
        List.getElem?_eq_getElem h, List.get_eq_getElem]
  · intro df fvgs sig hb1 hb2
    by_cases hf : sig.fvg_5m_id.getD "" = ""
    · simp [markerOf, hf]
    · cases hidx : sig.index_valid_close_after_touch with
      | none => simp [markerOf, hf, hidx]
      | some n =>
        by_cases hn : n ≤ 0
        · simp [markerOf, hf, hidx, hn]
        · simp [markerOf, hf, hidx, hn, hb1, hb2]
  · intro df fvgs sig n hidx hn
    by_cases hf : sig.fvg_5m_id.getD "" = ""
    · simp [markerOf, hf]
    · simp [markerOf, hf, hidx, hn]
  · intro df fvgs sig hidx
    by_cases hf : sig.fvg_5m_id.getD "" = ""
    · simp [markerOf, hf]
    · simp [markerOf, hf, hidx]

/-- A three-bar series used in the C3 witness. -/
def dfC3w : List Bar :=
  [ { ts_event := 1000, open_ := 50, high := 50, low := 50, close := 50 }
  , { ts_event := 1005, open_ := 55, high := 55, low := 55, close := 55 }
  , { ts_event := 1010, open_ := 60, high := 60, low := 60, close := 60 } ]

/-- An imbalance with identifier A starting at instant 1000. -/
def fvgC3w : Fvg :=
  { start_time := RawTS.valid 1000, begin_bound := some 1, end_bound := some 2
  , fvg_5m_id := "A", index_first_touch := none
  , index_valid_close_after_touch := none }

/-- An entry signal anchored to imbalance A with offset 1. -/
def sigC3w : TradeSignal :=
  { signal := "buy_long", fvg_5m_id := some "A"
  , index_valid_close_after_touch := some 1
  , exit_signal := none, exit_ts := RawTS.null, exit_price := none }

/-- Witness for `C3_offset_reconstruction`: offset 1 from anchor 1000 lands
on the bar at 1005 with close 55. -/
theorem C3_offset_reconstruction_witness :
    markerOf dfC3w [fvgC3w] sigC3w = some (1005, (55 : Rat), "buy_l") := by
  have h := (C3_offset_reconstruction.2.2.1 dfC3w [fvgC3w] sigC3w "A" 1
      (PTS.time 1000) rfl (by decide) rfl (by decide) (Or.inl rfl)
      (by decide)).2 (by decide)
  rw [h]
  decide

/-- An imbalance missing a price bound (or an unresolvable start) is never
inserted into the dictionary. -/
lemma fvgMetaEntry_none_of_missing_bound (f : Fvg)
    (h : f.begin_bound = none ∨ f.end_bound = none) : fvgMetaEntry f = none := by
  by_cases hst : parse_ts f.start_time = PTS.none
  · simp [fvgMetaEntry, hst]
  · cases hb : f.begin_bound with
    | none => simp [fvgMetaEntry, hst, hb]
    | some x =>
      cases he : f.end_bound with
      | none => simp [fvgMetaEntry, hst, hb, he]
      | some y =>
        rcases h with h | h
        · rw [hb] at h
          cases h
        · rw [he] at h
          cases h

/-- Every dictionary pair comes from an imbalance with both bounds present. -/
lemma mem_fvgMetaPairs (fvgs : List Fvg) (kv : String × PTS)
    (h : kv ∈ fvgMetaPairs fvgs) :
    ∃ f ∈ fvgs, f.fvg_5m_id = kv.1
      ∧ f.begin_bound.isSome = true ∧ f.end_bound.isSome = true := by
  obtain ⟨f, hf, he⟩ := List.mem_filterMap.1 h
  refine ⟨f, hf, ?_⟩
  by_cases hst : parse_ts f.start_time = PTS.none
  · simp [fvgMetaEntry, hst] at he
  · cases hb : f.begin_bound with
    | none => simp [fvgMetaEntry, hst, hb] at he
    | some x =>
      cases hee : f.end_bound with
      | none => simp [fvgMetaEntry, hst, hb, hee] at he
      | some y =>
        by_cases hid : f.fvg_5m_id = ""
        · simp [fvgMetaEntry, hst, hb, hee, hid] at he
        · simp only [fvgMetaEntry, hst, hb, hee, hid, if_neg, ite_false] at he
          refine ⟨?_, by simp [hb], by simp [hee]⟩
          have : (f.fvg_5m_id, parse_ts f.start_time) = kv := by
            simpa using he
          rw [← this]

/-- A dictionary fold over keys all different from the looked-up key stays
empty. -/
lemma foldl_lookup_none (pairs : List (String × PTS)) (k : String)
    (h : ∀ kv ∈ pairs, kv.1 ≠ k) :
    pairs.foldl (fun acc kv => if kv.1 = k then some kv.2 else acc)
      (Option.none : Option PTS) = Option.none := by
  induction pairs with
  | nil => rfl
  | cons kv rest ih =>
    rw [List.foldl_cons, if_neg (h kv (List.mem_cons_self _ _))]
    exact ih (fun x hx => h x (List.mem_cons_of_mem _ hx))

/-- Lookup fails for an identifier all of whose imbalances miss a bound. -/
lemma metaGet_none (fvgs : List Fvg) (k : String)
    (h : ∀ f ∈ fvgs, f.fvg_5m_id = k →
      f.begin_bound = none ∨ f.end_bound = none) :
    metaGet fvgs k = none := by
  apply foldl_lookup_none
  intro kv hkv hkk
  obtain ⟨f, hf, hid, hb1, hb2⟩ := mem_fvgMetaPairs _ kv hkv
  rcases h f hf (by rw [hid, hkk]) with hh | hh
  · rw [hh] at hb1
    simp at hb1
  · rw [hh] at hb2
    simp at hb2

/-- A signal whose anchor lookup fails draws no entry marker. -/
lemma markerOf_none_of_meta (df : List Bar) (fvgs : List Fvg)
    (sig : TradeSignal) (k : String)
    (h1 : sig.fvg_5m_id = some k) (h6 : metaGet fvgs k = none) :
    markerOf df fvgs sig = none := by
  by_cases hk : k = ""
  · simp [markerOf, h1, hk]
  · cases hidx : sig.index_valid_close_after_touch with
    | none => simp [markerOf, h1, hk, hidx]
    | some n =>
      by_cases hn : n ≤ 0
      · simp [markerOf, h1, hk, hidx, hn]
      · by_cases hs : sig.signal ≠ "buy_long" ∧ sig.signal ≠ "buy_short"
        · simp [markerOf, h1, hk, hidx, hn, hs]
        · simp [markerOf, h1, hk, hidx, hn, hs, h6]

/-- Replace every imbalance of an event through a function. -/
def mapFvgs (F : Fvg → Fvg) (ev : Event) : Event :=
  { ev with fvg_5m_in_window := ev.fvg_5m_in_window.map F }

/-- Candidate collection only reads each imbalance's start instant. -/
lemma candidatesStart_mapFvgs (ev : Event) (F : Fvg → Fvg)
    (hF : ∀ f, (F f).start_time = f.start_time) :
    candidatesStart (mapFvgs F ev) = candidatesStart ev := by
  have hmap : (ev.fvg_5m_in_window.map F).map (fun f => parse_ts f.start_time)
      = ev.fvg_5m_in_window.map (fun f => parse_ts f.start_time) := by
    rw [List.map_map]
    exact List.map_congr_left (fun f _ => by simp [Function.comp, hF f])
  simp only [candidatesStart, mapFvgs]
  rw [hmap]

/-- Candidate collection only reads each imbalance's start instant. -/
lemma candidatesEnd_mapFvgs (ev : Event) (F : Fvg → Fvg)
    (hF : ∀ f, (F f).start_time = f.start_time) :
    candidatesEnd (mapFvgs F ev) = candidatesEnd ev := by
  have hmap : (ev.fvg_5m_in_window.map F).map (fun f => parse_ts f.start_time)
      = ev.fvg_5m_in_window.map (fun f => parse_ts f.start_time) := by
    rw [List.map_map]
    exact List.map_congr_left (fun f _ => by simp [Function.comp, hF f])
  simp only [candidatesEnd, mapFvgs]
  rw [hmap]

/-- The resolved window ignores everything about an imbalance except its
start instant. -/
lemma resolvedWindow_mapFvgs (ev : Event) (F : Fvg → Fvg)
    (hF : ∀ f, (F f).start_time = f.start_time) :
    resolvedWindow (mapFvgs F ev) = resolvedWindow ev := by
  have h1 := candidatesStart_mapFvgs ev F hF
  have h2 := candidatesEnd_mapFvgs ev F hF
  have h3 : (mapFvgs F ev).trade_signals = ev.trade_signals := rfl
  simp only [resolvedWindow, get_time_window, h1, h2, h3]

/-- An imbalance with identifier A starting at 1000 but missing its lower
price bound. -/
def fvgC8 : Fvg :=
  { start_time := RawTS.valid 1000, begin_bound := none, end_bound := some 102
  , fvg_5m_id := "A", index_first_touch := none
  , index_valid_close_after_touch := none }

/-- An entry signal anchored by identifier to the bound-missing imbalance. -/
def sigC8 : TradeSignal :=
  { signal := "buy_long", fvg_5m_id := some "A"
  , index_valid_close_after_touch := some 1
  , exit_signal := none, exit_ts := RawTS.null, exit_price := none }

/-- An event with the bound-missing imbalance and the anchored signal. -/
def evC8x : Event :=
  { evEmpty with fvg_5m_in_window := [fvgC8], trade_signals := [sigC8] }

/-- The same event with the missing bound filled in. -/
def evC8ok : Event :=
  { evC8x with fvg_5m_in_window := [{ fvgC8 with begin_bound := some 100 }] }

/-- A three-bar series for the C8 counterexample. -/
def dfC8 : List Bar :=
  [ { ts_event := 1000, open_ := 71, high := 71, low := 71, close := 71 }
  , { ts_event := 1005, open_ := 72, high := 72, low := 72, close := 72 }
  , { ts_event := 1010, open_ := 73, high := 73, low := 73, close := 73 } ]

/-- C8 counterexample: the claim says the identifier-to-start-instant mapping
is built from EVERY imbalance regardless of price-bound validity, so entry
markers anchored to a bound-missing imbalance are still produced.  In fact
the dictionary insertion sits AFTER the price-bound guard (source lines
249-264): for `evC8x` the lookup for identifier A fails and the anchored
entry marker is dropped, while the identical event with the bound present
(`evC8ok`) produces it. -/
theorem C8_counterexample :
    metaGet evC8x.fvg_5m_in_window "A" = none
    ∧ buyMarkers dfC8 evC8x = []
    ∧ buyMarkers dfC8 evC8ok = [(1005, (72 : Rat), "buy_l")] := by
  decide

/-- C8 amended: a malformed imbalance missing a price bound is excluded from
the identifier-to-start-instant mapping (the mapping equals the one built
from only the bound-complete imbalances), so entry markers of signals
anchored to it by identifier are ALSO dropped, not just its own annotation;
every layer other than the imbalance markers/regions and the entry markers —
the resolved window, candlesticks, touch, structure breaks, exits, reference
band and guides — is unaffected by imbalance price bounds. -/
theorem C8_bound_missing_isolation :
    (∀ fvgs : List Fvg, fvgMetaPairs fvgs =
        fvgMetaPairs (fvgs.filter
          (fun f => f.begin_bound.isSome && f.end_bound.isSome)))
    ∧ (∀ fvgs k, (∀ f ∈ fvgs, f.fvg_5m_id = k →
          f.begin_bound = none ∨ f.end_bound = none) → metaGet fvgs k = none)
    ∧ (∀ df fvgs sig k, sig.fvg_5m_id = some k → metaGet fvgs k = none →
        markerOf df fvgs sig = none)
    ∧ (∀ df ev (F : Fvg → Fvg), (∀ f, (F f).start_time = f.start_time) →
        resolvedWindow (mapFvgs F ev) = resolvedWindow ev
        ∧ (build_chart df (mapFvgs F ev)).candles = (build_chart df ev).candles
        ∧ (build_chart df (mapFvgs F ev)).touch = (build_chart df ev).touch
        ∧ (build_chart df (mapFvgs F ev)).bos = (build_chart df ev).bos
        ∧ (build_chart df (mapFvgs F ev)).sells = (build_chart df ev).sells
        ∧ (build_chart df (mapFvgs F ev)).hourly = (build_chart df ev).hourly
        ∧ (build_chart df (mapFvgs F ev)).guides = (build_chart df ev).guides) := by
  refine ⟨?_, metaGet_none, markerOf_none_of_meta, ?_⟩
  · intro fvgs
    induction fvgs with
    | nil => rfl
    | cons f fs ih =>
      by_cases hb : (f.begin_bound.isSome && f.end_bound.isSome) = true
      · simp only [fvgMetaPairs] at ih ⊢
        rw [List.filter_cons, if_pos hb, List.filterMap_cons, List.filterMap_cons, ih]
      · have hmiss : f.begin_bound = none ∨ f.end_bound = none := by
          by_cases h1 : f.begin_bound = none
          · exact Or.inl h1
          · by_cases h2 : f.end_bound = none
            · exact Or.inr h2
            · have hb1 := Option.ne_none_iff_isSome.1 h1
              have hb2 := Option.ne_none_iff_isSome.1 h2
              rw [hb1, hb2] at hb
              simp at hb
        simp only [fvgMetaPairs] at ih ⊢
        simp [List.filter_cons, hb, List.filterMap_cons,
          fvgMetaEntry_none_of_missing_bound f hmiss, ih]
  · intro df ev F hF
    have hrw := resolvedWindow_mapFvgs ev F hF
    refine ⟨hrw, ?_, rfl, rfl, rfl, ?_, rfl⟩
    · simp only [build_chart, hrw]
    · simp only [build_chart, hrw]
      rfl

/-- Witness for `C8_bound_missing_isolation`: lookup for the bound-missing
imbalance fails and the anchored marker is dropped. -/
theorem C8_bound_missing_isolation_witness :
    metaGet [fvgC8] "A" = none
    ∧ markerOf dfC8 [fvgC8] sigC8 = none :=
  ⟨C8_bound_missing_isolation.2.1 [fvgC8] "A" (by decide),
   C8_bound_missing_isolation.2.2.1 dfC8 [fvgC8] sigC8 "A" rfl
     (C8_bound_missing_isolation.2.1 [fvgC8] "A" (by decide))⟩

/-- A fully populated event record: every optional field present. -/
def evC9 : Event :=
  { window := { bos_window_start := RawTS.valid 1000
              , bos_window_end := RawTS.valid 1100 }
  , touch := { window_start := RawTS.valid 1005, window_end := RawTS.valid 1095
             , ts_event := RawTS.valid 900, price_touched := some 50 }
  , fvg_5m_in_window :=
      [ { start_time := RawTS.valid 1010, begin_bound := some 100
        , end_bound := some 102, fvg_5m_id := "A"
        , index_first_touch := some 1, index_valid_close_after_touch := some 2 } ]
  , bos_5m_in_window :=
      [ { ts_event := RawTS.valid 1020, trigger_close := some 101
        , bos_direction := "up" } ]
  , hourly_fvg := { begin_bound := some 90, end_bound := some 95 }
  , trade_signals :=
      [ { signal := "buy_long", fvg_5m_id := some "A"
        , index_valid_close_after_touch := some 1
        , exit_signal := some "tp", exit_ts := RawTS.valid 1200
        , exit_price := some 103 } ] }

/-- The same record with the single optional field touch.ts_event removed. -/
def evC9drop : Event :=
  { evC9 with touch := { evC9.touch with ts_event := RawTS.null } }

/-- An eleven-bar series spanning instants 800 through 1300. -/
def dfC9 : List Bar :=
  (List.range 11).map fun i =>
    { ts_event := 800 + 50 * (i : Int)
    , open_ := (i : Int), high := (i : Int), low := (i : Int)
    , close := (i : Int) }

/-- C9 counterexample: the claim says removing any single optional field
removes exactly its own layer/marker and leaves every other layer
byte-identical.  Removing the touch instant from the fully populated `evC9`
does remove the touch marker, but it also changes the resolved window (the
touch at 900 was the minimum start candidate), so the candlestick layer —
a different layer — changes as well. -/
theorem C9_counterexample :
    (build_chart dfC9 evC9drop).touch = none
    ∧ (build_chart dfC9 evC9).touch = some (PTS.time 900, (50 : Rat))
    ∧ (build_chart dfC9 evC9drop).candles ≠ (build_chart dfC9 evC9).candles := by
  decide

/-- Remove the optional touch price from a record. -/
def dropTouchPrice (ev : Event) : Event :=
  { ev with touch := { ev.touch with price_touched := none } }

/-- Remove the reference-imbalance price bounds from a record. -/
def dropHourlyBounds (ev : Event) : Event :=
  { ev with hourly_fvg := { begin_bound := none, end_bound := none } }

/-- Remove every trade signal's explicit exit price from a record. -/
def dropExitPrices (ev : Event) : Event :=
  { ev with trade_signals :=
      ev.trade_signals.map (fun s => { s with exit_price := none }) }

/-- The extension step reads only the exit instant, never the exit price. -/
lemma exitStep_exit_price_irrel (e : PTS) (s : TradeSignal) :
    exitStep e { s with exit_price := none } = exitStep e s := rfl

/-- The whole extension loop is unchanged by dropping exit prices. -/
lemma extendEnd_drop_exit_prices (l : List TradeSignal) (e : PTS) :
    extendEnd (l.map (fun s => { s with exit_price := none })) e
      = extendEnd l e := by
  induction l generalizing e with
  | nil => rfl
  | cons s rest ih =>
    rw [List.map_cons, extendEnd_cons, extendEnd_cons, ih,
      exitStep_exit_price_irrel]

/-- The resolved window is unchanged by dropping exit prices. -/
lemma resolvedWindow_dropExitPrices (ev : Event) :
    resolvedWindow (dropExitPrices ev) = resolvedWindow ev := by
  have h1 : get_time_window (dropExitPrices ev) = get_time_window ev := rfl
  have h2 : (dropExitPrices ev).trade_signals
      = ev.trade_signals.map (fun s => { s with exit_price := none }) := rfl
  simp only [resolvedWindow, h1, h2]
  rw [extendEnd_drop_exit_prices]

/-- Entry reconstruction reads only kind, anchor and offset, never the exit
price. -/
lemma markerOf_exit_price_irrel (df : List Bar) (fvgs : List Fvg)
    (s : TradeSignal) :
    markerOf df fvgs { s with exit_price := none } = markerOf df fvgs s := rfl

/-- The buy-marker layer is unchanged by dropping exit prices. -/
lemma buyMarkers_dropExitPrices (df : List Bar) (ev : Event) :
    buyMarkers df (dropExitPrices ev) = buyMarkers df ev := by
  have hfv : (dropExitPrices ev).fvg_5m_in_window = ev.fvg_5m_in_window := rfl
  have hts : (dropExitPrices ev).trade_signals
      = ev.trade_signals.map (fun s => { s with exit_price := none }) := rfl
  simp only [buyMarkers, hfv, hts]
  induction ev.trade_signals with
  | nil => rfl
  | cons s rest ih =>
    rw [List.map_cons, List.filterMap_cons, List.filterMap_cons,
      markerOf_exit_price_irrel, ih]

/-- With its exit price removed, a signal draws no exit marker. -/
lemma sellMarkers_drop_exit_prices (l : List TradeSignal) :
    sellMarkers (l.map (fun s => { s with exit_price := none })) = [] := by
  induction l with
  | nil => rfl
  | cons s rest ih =>
    simp only [sellMarkers, List.map_cons, List.filterMap_cons] at ih ⊢
    cases hes : s.exit_signal with
    | none => simpa [hes] using ih
    | some es =>
      by_cases he : es = ""
      · simpa [hes, he] using ih
      · by_cases ht : ptsTruthy (parse_ts s.exit_ts) = true
        · simpa [hes, he, ht] using ih
        · simpa [hes, he, ht] using ih

/-- C9 amended: removing a single optional field removes its own layer or
marker, but leaves every other layer byte-identical only when no other layer
reads the field.  That holds for the single-reader fields, proved here for
the touch price (only the touch marker goes), the reference-imbalance price
bounds (only the reference band goes) and the trade signals' exit prices
(only the exit markers go).  It fails in exactly two ways: a temporal field
also feeds the resolved window, so its removal can change the candlestick
slice and every window-anchored layer (`C9_counterexample`); and an
imbalance's price bounds also feed the identifier-to-start-instant anchor
mapping, so removing one drops the entry markers anchored to that imbalance
(the C8 finding). -/
theorem C9_single_reader_removal (df : List Bar) (ev : Event) :
    ((∀ p : Rat, notNone (parse_ts ev.touch.ts_event) = true →
        ev.touch.price_touched = some p →
        (build_chart df ev).touch = some (parse_ts ev.touch.ts_event, p))
      ∧ (build_chart df (dropTouchPrice ev)).touch = none
      ∧ (build_chart df (dropTouchPrice ev)).candles = (build_chart df ev).candles
      ∧ (build_chart df (dropTouchPrice ev)).bos = (build_chart df ev).bos
      ∧ (build_chart df (dropTouchPrice ev)).fvgMarks = (build_chart df ev).fvgMarks
      ∧ (build_chart df (dropTouchPrice ev)).fvgRects = (build_chart df ev).fvgRects
      ∧ (build_chart df (dropTouchPrice ev)).buys = (build_chart df ev).buys
      ∧ (build_chart df (dropTouchPrice ev)).sells = (build_chart df ev).sells
      ∧ (build_chart df (dropTouchPrice ev)).hourly = (build_chart df ev).hourly
      ∧ (build_chart df (dropTouchPrice ev)).guides = (build_chart df ev).guides)
    ∧ ((build_chart df (dropHourlyBounds ev)).hourly = none
      ∧ (build_chart df (dropHourlyBounds ev)).candles = (build_chart df ev).candles
      ∧ (build_chart df (dropHourlyBounds ev)).touch = (build_chart df ev).touch
      ∧ (build_chart df (dropHourlyBounds ev)).bos = (build_chart df ev).bos
      ∧ (build_chart df (dropHourlyBounds ev)).fvgMarks = (build_chart df ev).fvgMarks
      ∧ (build_chart df (dropHourlyBounds ev)).fvgRects = (build_chart df ev).fvgRects
      ∧ (build_chart df (dropHourlyBounds ev)).buys = (build_chart df ev).buys
      ∧ (build_chart df (dropHourlyBounds ev)).sells = (build_chart df ev).sells
      ∧ (build_chart df (dropHourlyBounds ev)).guides = (build_chart df ev).guides)
    ∧ ((build_chart df (dropExitPrices ev)).sells = []
      ∧ (build_chart df (dropExitPrices ev)).candles = (build_chart df ev).candles
      ∧ (build_chart df (dropExitPrices ev)).touch = (build_chart df ev).touch
      ∧ (build_chart df (dropExitPrices ev)).bos = (build_chart df ev).bos
      ∧ (build_chart df (dropExitPrices ev)).fvgMarks = (build_chart df ev).fvgMarks
      ∧ (build_chart df (dropExitPrices ev)).fvgRects = (build_chart df ev).fvgRects
      ∧ (build_chart df (dropExitPrices ev)).buys = (build_chart df ev).buys
      ∧ (build_chart df (dropExitPrices ev)).hourly = (build_chart df ev).hourly
      ∧ (build_chart df (dropExitPrices ev)).guides = (build_chart df ev).guides) := by
  have hrw := resolvedWindow_dropExitPrices ev
  refine ⟨⟨?_, ?_, rfl, rfl, rfl, rfl, rfl, rfl, rfl, rfl⟩,
    ⟨?_, rfl, rfl, rfl, rfl, rfl, rfl, rfl, rfl⟩,
    ⟨?_, ?_, rfl, rfl, rfl, ?_, ?_, ?_, rfl⟩⟩
  · intro p h1 h2
    simp [build_chart, touchMarker, h2, h1]
  · simp [build_chart, dropTouchPrice, touchMarker]
  · rfl
  · exact sellMarkers_drop_exit_prices ev.trade_signals
  · simp only [build_chart, hrw]
  · simp only [build_chart, hrw]
    rfl
  · exact buyMarkers_dropExitPrices df ev
  · simp only [build_chart, hrw]
    rfl

/-- A single-bar series for the C9 witness. -/
def dfC9w : List Bar := [{ ts_event := 700, open_ := 1, high := 1, low := 1, close := 1 }]

/-- An event with a touch instant, a touch price, reference-band bounds and
one signal with an explicit exit. -/
def evC9w : Event :=
  { evEmpty with
    touch := { window_start := RawTS.null, window_end := RawTS.null
             , ts_event := RawTS.valid 700, price_touched := some 42 }
  , hourly_fvg := { begin_bound := some 90, end_bound := some 95 }
  , trade_signals :=
      [ { signal := "", fvg_5m_id := none, index_valid_close_after_touch := none
        , exit_signal := some "tp", exit_ts := RawTS.valid 710
        , exit_price := some 43 } ] }

/-- Witness for `C9_single_reader_removal` at a concrete record. -/
theorem C9_single_reader_removal_witness :
    (build_chart dfC9w evC9w).touch = some (parse_ts evC9w.touch.ts_event, (42 : Rat))
    ∧ (build_chart dfC9w (dropTouchPrice evC9w)).touch = none
    ∧ (build_chart dfC9w (dropHourlyBounds evC9w)).hourly = none
    ∧ (build_chart dfC9w (dropExitPrices evC9w)).sells = [] :=
  ⟨(C9_single_reader_removal dfC9w evC9w).1.1 42 (by decide) rfl,
   (C9_single_reader_removal dfC9w evC9w).1.2.1,
   (C9_single_reader_removal dfC9w evC9w).2.1.1,
   (C9_single_reader_removal dfC9w evC9w).2.2.1⟩

/-- C2: for the concrete scenario (5-minute series over 2024-01-02, event
with structure-break window [00:00Z, 01:00Z], one imbalance starting 01:10Z
with bounds [100, 102], one entry signal anchored to it with offset 2 and no
exit) the resolved window is [2024-01-01T23:00Z, 2024-01-02T02:10Z] — the
exit post-extension changes nothing — and the reconstructed entry marker is
the (instant, close price) of the bar at 2024-01-02T01:20Z, i.e. the bar at
zero-based offset 2 of the series filtered to instants at or after 01:10Z. -/
theorem C2_concrete_scenario :
    get_time_window evC2 = (PTS.time 1380, PTS.time 1570)
    ∧ resolvedWindow evC2 = (PTS.time 1380, PTS.time 1570)
    ∧ (sliceFrom series288 (PTS.time 1510))[2]?.map
        (fun b => (b.ts_event, b.close)) = some (1520, (116 : Rat))
    ∧ (series288.filter (fun b => b.ts_event = 1520)).map Bar.close
        = [(116 : Rat)]
    ∧ buyMarkers series288 evC2 = [(1520, (116 : Rat), "buy_l")] := by
  decide

end NQViewer
